import Mathlib

/-!
Shallow embedding of the chess match state controller
(`UChessGameStateComponent` in
`Source/NeonCityChess/Private/ChessGameStateComponent.cpp`) together with
proofs of the specified properties.

`FString` operations act on TCHAR sequences; we model an `FString` as a
Lean `String` and index/slice it through its character list, which matches
the per-TCHAR semantics of `Len`, `Left`, `Mid`, `StartsWith` and
`operator[]`.  `FString` comparison in the engine is case-insensitive by
default; every string that the component compares or sorts here is either a
square normalised to lowercase or a target extracted from an
oracle-supplied UCI move (lowercase by the payload format of the spec), on
which case-insensitive and exact comparison coincide, so we embed
comparison as exact character comparison.
-/

/-- UE `FString::Len`: the number of TCHARs in the string. -/
def strLen (s : String) : Nat := s.data.length

/-- UE `FString::Left(n)`: the first `n` characters. -/
def strLeft (s : String) (n : Nat) : String := ⟨s.data.take n⟩

/-- UE `FString::Mid(i, n)`: `n` characters starting at index `i`. -/
def strMid (s : String) (i n : Nat) : String := ⟨(s.data.drop i).take n⟩

/-- UE `FString::StartsWith(p, ESearchCase::CaseSensitive)`. -/
def strStartsWith (s p : String) : Bool := p.data.isPrefixOf s.data

/-- UE `FString::ToLower`, lowercasing each TCHAR. -/
def strToLower (s : String) : String := ⟨s.data.map Char.toLower⟩

/-- UE `FString::TrimStartAndEnd`, dropping whitespace at both ends. -/
def strTrim (s : String) : String :=
  ⟨((s.data.dropWhile Char.isWhitespace).reverse.dropWhile Char.isWhitespace).reverse⟩

/-- Lexicographic comparison of character lists (ascending order used by
`TArray<FString>::Sort()`). -/
def charListLe : List Char → List Char → Bool
  | [], _ => true
  | _ :: _, [] => false
  | a :: as, b :: bs => if a < b then true else if b < a then false else charListLe as bs

/-- String comparison backing the ascending sort of the legal-target list. -/
def strLe (a b : String) : Bool := charListLe a.data b.data

/-- Insert a string into an ascending list (one step of the sort). -/
def insertAsc (a : String) : List String → List String
  | [] => [a]
  | b :: l => if strLe a b then a :: b :: l else b :: insertAsc a l

/-- Ascending sort, modelling `TArray<FString>::Sort()` on the target list. -/
def sortAsc (l : List String) : List String := l.foldr insertAsc []

/-- UE `TArray::AddUnique`: append at the end unless already present. -/
def addUnique (acc : List String) (t : String) : List String :=
  if t ∈ acc then acc else acc ++ [t]

/-- The `FChessStatePayload` struct of `ChessTypes.h`: the controller's
authoritative snapshot of the match. -/
structure FChessStatePayload where
  Fen : String
  Turn : String
  SelectedSquare : String
  LegalTargets : List String
  bIsGameOver : Bool
  StatusText : String
  ScoreText : String
  LegalMovesUci : List String

/-- The mutable state owned by `UChessGameStateComponent`: the current
snapshot plus the move history (`MoveHistoryUci`). -/
structure ControllerState where
  CurrentState : FChessStatePayload
  MoveHistoryUci : List String

/-- Default-initialised `FChessStatePayload` (all strings empty, arrays
empty, `bIsGameOver = false`), as produced by the component's constructor. -/
def initialPayload : FChessStatePayload :=
  { Fen := "", Turn := "", SelectedSquare := "", LegalTargets := [],
    bIsGameOver := false, StatusText := "", ScoreText := "", LegalMovesUci := [] }

/-- Controller state at construction: default snapshot, empty history. -/
def initialState : ControllerState :=
  { CurrentState := initialPayload, MoveHistoryUci := [] }

/-- The JSON document produced by the oracle, field by field.  A field is
`none` when it is absent from the document (or not of the expected JSON
type, which `TryGet*Field` treats the same way). -/
structure OraclePayload where
  fen : Option String := none
  turn : Option String := none
  is_game_over : Option Bool := none
  status_text : Option String := none
  score_text : Option String := none
  selected_square : Option String := none
  legal_targets : Option (List String) := none
  legal_moves_uci : Option (List String) := none

/-- Outcome of one out-of-process oracle invocation, as observed by
`RefreshState`: either the exporter could not deliver output (script
missing, `ExecProcess` failure, non-zero exit, or unreadable output file,
each of which makes `RefreshState` fail with the given message), or an
output document, where `none` stands for text that
`FJsonSerializer::Deserialize` rejects. -/
inductive OracleResponse where
  | execError (msg : String) : OracleResponse
  | output (json : Option OraclePayload) : OracleResponse

/-- An oracle: the response as a function of the comma-joined move history
that `RefreshState` sends (`BuildMovesCsv`). -/
def Oracle := String → OracleResponse

/-- `UChessGameStateComponent::NormalizeSquare`: lowercase then trim. -/
def NormalizeSquare (square : String) : String := strTrim (strToLower square)

/-- `UChessGameStateComponent::IsSquareValid`: exactly two characters,
file `a`..`h`, rank `1`..`8`. -/
def IsSquareValid (square : String) : Bool :=
  match square.data with
  | [f, r] => decide ('a' ≤ f) && decide (f ≤ 'h') && decide ('1' ≤ r) && decide (r ≤ '8')
  | _ => false

/-- `UChessGameStateComponent::BuildMovesCsv`: history joined by commas. -/
def BuildMovesCsv (moves : List String) : String := String.intercalate "," moves

/-- `UChessGameStateComponent::ParsePayloadJson`.  `none` input stands for
a document `Deserialize` rejects.  The five required fields must all be
present; `selected_square`, `legal_targets` and `legal_moves_uci` are
optional and default to the empty string / empty array of the
default-initialised `FChessStatePayload` passed in as `OutState`. -/
def ParsePayloadJson : Option OraclePayload → Except String FChessStatePayload
  | none => Except.error "Failed to parse JSON payload."
  | some p =>
    if p.fen.isSome && p.turn.isSome && p.is_game_over.isSome &&
        p.status_text.isSome && p.score_text.isSome then
      Except.ok
        { Fen := p.fen.getD "", Turn := p.turn.getD "",
          bIsGameOver := p.is_game_over.getD false,
          StatusText := p.status_text.getD "", ScoreText := p.score_text.getD "",
          SelectedSquare := p.selected_square.getD "",
          LegalTargets := p.legal_targets.getD [],
          LegalMovesUci := p.legal_moves_uci.getD [] }
    else Except.error "Payload is missing one or more required fields."

/-- Result of `RefreshState`: the component state afterwards, the returned
bool, the `OutError` out-parameter, and whether `OnStateChanged` fired. -/
structure RefreshResult where
  state : ControllerState
  ok : Bool
  error : String
  notified : Bool

/-- How `RefreshState` handles one oracle response: any failure leaves the
state untouched, reports the error and does not notify; success replaces
`CurrentState` wholesale with the parsed payload and broadcasts
`OnStateChanged`. -/
def handleResponse (s : ControllerState) : OracleResponse → RefreshResult
  | OracleResponse.execError m => { state := s, ok := false, error := m, notified := false }
  | OracleResponse.output j =>
    match ParsePayloadJson j with
    | Except.error e => { state := s, ok := false, error := e, notified := false }
    | Except.ok next =>
      { state := { s with CurrentState := next }, ok := true, error := "", notified := true }

/-- `UChessGameStateComponent::RefreshState`: invoke the oracle on the
current history CSV and handle its response. -/
def RefreshState (oracle : Oracle) (s : ControllerState) : RefreshResult :=
  handleResponse s (oracle (BuildMovesCsv s.MoveHistoryUci))

/-- Result of `ResetMatch`: the state afterwards and the warning text
logged on a failed refresh (empty when nothing was logged). -/
structure ResetResult where
  state : ControllerState
  warning : String

/-- `UChessGameStateComponent::ResetMatch`: clear the move history, then
refresh; a refresh failure with a non-empty error is logged, not thrown. -/
def ResetMatch (oracle : Oracle) (s : ControllerState) : ResetResult :=
  let s1 : ControllerState := { s with MoveHistoryUci := [] }
  let r := RefreshState oracle s1
  { state := r.state, warning := if (!r.ok && !(r.error == "")) = true then r.error else "" }

/-- The target-collection loop of `SelectSquare`: for each legal move of
length at least 4 whose first two characters equal the normalised square,
`AddUnique` its second square (`Mid(2,2)`). -/
def computeTargets (normalized : String) (moves : List String) : List String :=
  moves.foldl
    (fun acc uci =>
      if strLen uci < 4 then acc
      else if strLeft uci 2 == normalized then addUnique acc (strMid uci 2 2)
      else acc) []

/-- Result of `SelectSquare`: state afterwards, the returned bool, and
whether `OnStateChanged` fired. -/
structure SelectResult where
  state : ControllerState
  returned : Bool
  notified : Bool

/-- `UChessGameStateComponent::SelectSquare`. -/
def SelectSquare (square : String) (s : ControllerState) : SelectResult :=
  let normalized := NormalizeSquare square
  if IsSquareValid normalized then
    let nextTargets := computeTargets normalized s.CurrentState.LegalMovesUci
    if nextTargets.isEmpty then
      { state := { s with CurrentState :=
          { s.CurrentState with SelectedSquare := "", LegalTargets := [] } },
        returned := false, notified := true }
    else
      { state := { s with CurrentState :=
          { s.CurrentState with
            SelectedSquare := normalized,
            LegalTargets := sortAsc nextTargets } },
        returned := true, notified := true }
  else { state := s, returned := false, notified := false }

/-- The move-selection loop of `TryMoveSelectedTo`: scan the legal moves
for entries starting with the 4-character from+to string; a length-5 entry
whose fifth character is the promotion letter q is taken immediately
(break), otherwise the first matching entry is remembered. -/
def pickMove (pfx : String) : List String → String → String
  | [], selected => selected
  | uci :: rest, selected =>
    if strStartsWith uci pfx then
      if strLen uci == 5 && (uci.data.getD 4 ' ' == 'q') then uci
      else if selected == "" then pickMove pfx rest uci
      else pickMove pfx rest selected
    else pickMove pfx rest selected

/-- Result of `TryMoveSelectedTo`: state afterwards, the returned bool,
the `OutError` out-parameter, whether `OnStateChanged` fired, and whether
the oracle (the exporter process) was invoked. -/
structure MoveResult where
  state : ControllerState
  ok : Bool
  error : String
  notified : Bool
  oracleCalled : Bool

/-- `UChessGameStateComponent::TryMoveSelectedTo`. -/
def TryMoveSelectedTo (target : String) (oracle : Oracle) (s : ControllerState) : MoveResult :=
  let fromSq := NormalizeSquare s.CurrentState.SelectedSquare
  let toSq := NormalizeSquare target
  if IsSquareValid fromSq then
    if IsSquareValid toSq then
      let pfx := fromSq ++ toSq
      let chosen := pickMove pfx s.CurrentState.LegalMovesUci ""
      if chosen == "" then
        { state := s, ok := false, error := "Illegal move: " ++ pfx,
          notified := false, oracleCalled := false }
      else
        let s1 : ControllerState := { s with MoveHistoryUci := s.MoveHistoryUci ++ [chosen] }
        let r := RefreshState oracle s1
        if r.ok then
          { state := r.state, ok := true, error := "", notified := r.notified,
            oracleCalled := true }
        else
          { state := { r.state with MoveHistoryUci := r.state.MoveHistoryUci.dropLast },
            ok := false, error := r.error, notified := r.notified, oracleCalled := true }
    else
      { state := s, ok := false, error := "Target square is invalid.",
        notified := false, oracleCalled := false }
  else
    { state := s, ok := false, error := "No selected square.",
      notified := false, oracleCalled := false }

/-- One public controller operation, with the oracle behaviour in effect
during any refresh it performs. -/
inductive ChessOp where
  | refreshOp (oracle : Oracle) : ChessOp
  | resetOp (oracle : Oracle) : ChessOp
  | selectOp (square : String) : ChessOp
  | moveOp (target : String) (oracle : Oracle) : ChessOp

/-- The state transition of one controller operation. -/
def applyOp (s : ControllerState) : ChessOp → ControllerState
  | ChessOp.refreshOp o => (RefreshState o s).state
  | ChessOp.resetOp o => (ResetMatch o s).state
  | ChessOp.selectOp sq => (SelectSquare sq s).state
  | ChessOp.moveOp t o => (TryMoveSelectedTo t o s).state

/-- States reachable from construction through the public operations. -/
def Reachable (s : ControllerState) : Prop :=
  ∃ ops : List ChessOp, s = ops.foldl applyOp initialState

/-- The second-square components of the legal moves whose first two
characters equal `sel` (an entry shorter than 4 characters has no second
square and is skipped, exactly as the collection loop does). -/
def specTargets (sel : String) (moves : List String) : List String :=
  (moves.filter (fun m => decide (4 ≤ strLen m) && (strLeft m 2 == sel))).map
    (fun m => strMid m 2 2)

/-- The selection/target consistency invariant of the spec: a non-empty
selection's targets are exactly the second squares of the matching legal
moves, and empty targets force an empty selection. -/
def stateInvariant (p : FChessStatePayload) : Prop :=
  (p.SelectedSquare ≠ "" →
    ∀ t, t ∈ p.LegalTargets ↔ t ∈ specTargets p.SelectedSquare p.LegalMovesUci) ∧
  (p.LegalTargets = [] → p.SelectedSquare = "")

/-- A non-empty selection after a successful parse whose payload left
`selected_square` absent or empty is impossible; such payloads always
yield the consistency invariant. -/
lemma stateInvariant_of_selEmpty (p : FChessStatePayload) (h : p.SelectedSquare = "") :
    stateInvariant p := by
  constructor
  · intro hne
    exact absurd h hne
  · intro _
    exact h

lemma stateInvariant_initial : stateInvariant initialPayload :=
  stateInvariant_of_selEmpty initialPayload rfl

lemma mem_insertAsc (a x : String) (l : List String) :
    x ∈ insertAsc a l ↔ x = a ∨ x ∈ l := by
  induction l with
  | nil => simp [insertAsc]
  | cons b t ih =>
    simp only [insertAsc]
    split
    · simp [List.mem_cons]
    · simp only [List.mem_cons, ih]
      tauto

lemma insertAsc_perm (a : String) (l : List String) :
    List.Perm (insertAsc a l) (a :: l) := by
  induction l with
  | nil => exact List.Perm.refl _
  | cons b t ih =>
    simp only [insertAsc]
    split
    · exact List.Perm.refl _
    · exact (ih.cons b).trans (List.Perm.swap a b t)

lemma sortAsc_perm (l : List String) : List.Perm (sortAsc l) l := by
  induction l with
  | nil => exact List.Perm.refl _
  | cons b t ih => exact (insertAsc_perm b (sortAsc t)).trans (ih.cons b)

lemma mem_sortAsc (x : String) (l : List String) : x ∈ sortAsc l ↔ x ∈ l :=
  (sortAsc_perm l).mem_iff

lemma sortAsc_eq_nil_iff (l : List String) : sortAsc l = [] ↔ l = [] := by
  constructor
  · intro h
    have := (sortAsc_perm l).length_eq
    rw [h] at this
    exact List.eq_nil_of_length_eq_zero this.symm
  · intro h
    rw [h]
    rfl

lemma sortAsc_nodup (l : List String) (h : l.Nodup) : (sortAsc l).Nodup :=
  ((sortAsc_perm l).nodup_iff).mpr h

lemma charListLe_total (as bs : List Char) :
    charListLe as bs = true ∨ charListLe bs as = true := by
  induction as generalizing bs with
  | nil => left; rfl
  | cons a as ih =>
    cases bs with
    | nil => right; rfl
    | cons b bs =>
      simp only [charListLe]
      rcases lt_trichotomy a b with h | h | h
      · left
        simp [h]
      · subst h
        have hirr : ¬ a < a := lt_irrefl a
        rcases ih bs with h2 | h2 <;> simp [hirr, h2]
      · right
        simp [h]

lemma charListLe_trans (as bs cs : List Char)
    (h1 : charListLe as bs = true) (h2 : charListLe bs cs = true) :
    charListLe as cs = true := by
  induction as generalizing bs cs with
  | nil => rfl
  | cons a as ih =>
    cases bs with
    | nil => exact absurd h1 (by simp [charListLe])
    | cons b bs =>
      cases cs with
      | nil => exact absurd h2 (by simp [charListLe])
      | cons c cs =>
        simp only [charListLe] at h1 h2 ⊢
        rcases lt_trichotomy a b with hab | hab | hab
        · rcases lt_trichotomy b c with hbc | hbc | hbc
          · simp [hab.trans hbc]
          · subst hbc
            simp [hab]
          · exfalso
            simp [lt_asymm hbc, hbc] at h2
        · subst hab
          rcases lt_trichotomy a c with hac | hac | hac
          · simp [hac]
          · subst hac
            simp only [lt_irrefl, if_false] at h1 h2 ⊢
            exact ih bs cs h1 h2
          · exfalso
            simp [lt_irrefl, lt_asymm hac, hac] at h1 h2
        · exfalso
          simp [lt_asymm hab, hab] at h1

lemma strLe_total (a b : String) : strLe a b = true ∨ strLe b a = true :=
  charListLe_total a.data b.data

lemma strLe_trans (a b c : String) (h1 : strLe a b = true) (h2 : strLe b c = true) :
    strLe a c = true :=
  charListLe_trans a.data b.data c.data h1 h2

lemma sorted_insertAsc (a : String) (l : List String)
    (h : List.Pairwise (fun x y => strLe x y = true) l) :
    List.Pairwise (fun x y => strLe x y = true) (insertAsc a l) := by
  induction l with
  | nil => simp [insertAsc]
  | cons b t ih =>
    simp only [insertAsc]
    rcases List.pairwise_cons.mp h with ⟨hb, ht⟩
    split
    · rename_i hab
      refine List.pairwise_cons.mpr ⟨?_, h⟩
      intro x hx
      rcases List.mem_cons.mp hx with rfl | hx
      · exact hab
      · exact strLe_trans a b x hab (hb x hx)
    · rename_i hab
      have hba : strLe b a = true := by
        rcases strLe_total a b with h1 | h1
        · exact absurd h1 hab
        · exact h1
      refine List.pairwise_cons.mpr ⟨?_, ih ht⟩
      intro x hx
      rcases (mem_insertAsc a x t).mp hx with rfl | hx
      · exact hba
      · exact hb x hx

lemma sorted_sortAsc (l : List String) :
    List.Pairwise (fun x y => strLe x y = true) (sortAsc l) := by
  induction l with
  | nil => simp [sortAsc]
  | cons b t ih => exact sorted_insertAsc b (sortAsc t) ih

lemma mem_addUnique (acc : List String) (x t : String) :
    t ∈ addUnique acc x ↔ t ∈ acc ∨ t = x := by
  unfold addUnique
  split
  · rename_i hx
    constructor
    · exact Or.inl
    · rintro (h | rfl)
      · exact h
      · exact hx
  · simp

lemma nodup_addUnique (acc : List String) (x : String) (h : acc.Nodup) :
    (addUnique acc x).Nodup := by
  unfold addUnique
  split
  · exact h
  · rename_i hx
    simp [List.nodup_append, h, hx]

lemma specTargets_nil (sel : String) : specTargets sel [] = [] := rfl

lemma specTargets_cons (sel m : String) (rest : List String) :
    specTargets sel (m :: rest) =
      if decide (4 ≤ strLen m) && (strLeft m 2 == sel) then
        strMid m 2 2 :: specTargets sel rest
      else specTargets sel rest := by
  simp only [specTargets, List.filter_cons]
  split
  · simp
  · rfl

lemma mem_computeTargets_aux (sel : String) (moves : List String) :
    ∀ acc t,
      (t ∈ moves.foldl
        (fun acc uci =>
          if strLen uci < 4 then acc
          else if strLeft uci 2 == sel then addUnique acc (strMid uci 2 2)
          else acc) acc) ↔ t ∈ acc ∨ t ∈ specTargets sel moves := by
  induction moves with
  | nil => simp [specTargets]
  | cons m rest ih =>
    intro acc t
    simp only [List.foldl_cons, specTargets_cons]
    by_cases hlen : strLen m < 4
    · have h4 : ¬ 4 ≤ strLen m := by omega
      rw [if_pos hlen, if_neg (by simp [h4]), ih acc t]
    · by_cases hsel : (strLeft m 2 == sel) = true
      · have h4 : 4 ≤ strLen m := by omega
        rw [if_neg hlen, if_pos hsel, if_pos (by simp [h4, hsel]), ih _ t]
        simp only [mem_addUnique, List.mem_cons]
        tauto
      · rw [if_neg hlen, if_neg hsel, if_neg (by simp [hsel]), ih acc t]

lemma mem_computeTargets (sel : String) (moves : List String) (t : String) :
    t ∈ computeTargets sel moves ↔ t ∈ specTargets sel moves := by
  have := mem_computeTargets_aux sel moves [] t
  simpa [computeTargets] using this

lemma nodup_computeTargets_aux (sel : String) (moves : List String) :
    ∀ acc, acc.Nodup →
      (moves.foldl
        (fun acc uci =>
          if strLen uci < 4 then acc
          else if strLeft uci 2 == sel then addUnique acc (strMid uci 2 2)
          else acc) acc).Nodup := by
  induction moves with
  | nil => intro acc h; exact h
  | cons m rest ih =>
    intro acc h
    simp only [List.foldl_cons]
    by_cases hlen : strLen m < 4
    · simp only [hlen, if_true]
      exact ih acc h
    · by_cases hsel : strLeft m 2 == sel
      · simp only [hlen, if_false, hsel, if_true]
        exact ih _ (nodup_addUnique acc (strMid m 2 2) h)
      · simp only [hlen, if_false, hsel]
        exact ih acc h

lemma nodup_computeTargets (sel : String) (moves : List String) :
    (computeTargets sel moves).Nodup :=
  nodup_computeTargets_aux sel moves [] List.nodup_nil

lemma computeTargets_eq_nil_iff (sel : String) (moves : List String) :
    computeTargets sel moves = [] ↔ specTargets sel moves = [] := by
  simp only [List.eq_nil_iff_forall_not_mem]
  constructor
  · intro h t ht
    exact h t ((mem_computeTargets sel moves t).mpr ht)
  · intro h t ht
    exact h t ((mem_computeTargets sel moves t).mp ht)

/-- The queen-promotion test of the move-selection loop: the entry starts
with the from+to string, has length 5, and its fifth character is q. -/
def isQPromo (pfx m : String) : Bool :=
  strStartsWith m pfx && (strLen m == 5) && (m.data.getD 4 ' ' == 'q')

lemma IsSquareValid_data_length (sq : String) (h : IsSquareValid sq = true) :
    sq.data.length = 2 := by
  unfold IsSquareValid at h
  match hd : sq.data with
  | [f, r] => rfl
  | [] => rw [hd] at h; exact absurd h (by simp)
  | [f] => rw [hd] at h; exact absurd h (by simp)
  | f :: r :: x :: l => rw [hd] at h; exact absurd h (by simp)

lemma strStartsWith_ne_empty (m pfx : String) (hp : strStartsWith m pfx = true)
    (hd : pfx.data ≠ []) : ¬ (m == "") = true := by
  intro hm
  have hm' : m = "" := by simpa using hm
  subst hm'
  unfold strStartsWith at hp
  have hpre : pfx.data <+: ("" : String).data := List.isPrefixOf_iff_prefix.mp hp
  have : pfx.data = [] := List.prefix_nil.mp hpre
  exact hd this

lemma isQPromo_eq (pfx m : String) (hpfx : pfx.data.length = 4)
    (h : isQPromo pfx m = true) : m = pfx ++ "q" := by
  unfold isQPromo at h
  simp only [Bool.and_eq_true] at h
  obtain ⟨⟨hpre, hlen⟩, hq⟩ := h
  have hlen' : m.data.length = 5 := by simpa [strLen] using hlen
  have hq' : m.data.getD 4 ' ' = 'q' := by simpa using hq
  have hpre' : pfx.data <+: m.data := List.isPrefixOf_iff_prefix.mp hpre
  obtain ⟨t, ht⟩ := hpre'
  have htlen : t.length = 1 := by
    have := congrArg List.length ht
    simp only [List.length_append, hpfx, hlen'] at this
    omega
  obtain ⟨c, rfl⟩ := List.length_eq_one.mp htlen
  have hc : c = 'q' := by
    rw [← ht, List.getD_append_right pfx.data [c] ' ' 4 (by omega), hpfx] at hq'
    simpa using hq'
  apply String.ext
  rw [String.data_append, ← ht, hc]

lemma pickMove_no_match (pfx : String) (moves : List String)
    (h : ∀ m ∈ moves, strStartsWith m pfx = false) :
    ∀ sel, pickMove pfx moves sel = sel := by
  induction moves with
  | nil => intro sel; rfl
  | cons m rest ih =>
    intro sel
    have hm : strStartsWith m pfx = false := h m (List.mem_cons_self m rest)
    simp only [pickMove, hm]
    exact ih (fun x hx => h x (List.mem_cons_of_mem m hx)) sel

lemma pickMove_keep (pfx : String) (moves : List String)
    (hq : ∀ m ∈ moves, isQPromo pfx m = false) :
    ∀ sel, ¬ (sel == "") = true → pickMove pfx moves sel = sel := by
  induction moves with
  | nil => intro sel _; rfl
  | cons m rest ih =>
    intro sel hsel
    have hqm : isQPromo pfx m = false := hq m (List.mem_cons_self m rest)
    by_cases hs : strStartsWith m pfx = true
    · have hnq : ((strLen m == 5) && (m.data.getD 4 ' ' == 'q')) = false := by
        rw [isQPromo, hs] at hqm
        simpa using hqm
      simp only [pickMove, hs, if_true, hnq, Bool.false_eq_true, if_false, hsel]
      exact ih (fun x hx => hq x (List.mem_cons_of_mem m hx)) sel hsel
    · have hs' : strStartsWith m pfx = false := Bool.not_eq_true _ ▸ Bool.of_not_eq_true hs
      simp only [pickMove, hs', Bool.false_eq_true, if_false]
      exact ih (fun x hx => hq x (List.mem_cons_of_mem m hx)) sel hsel

lemma pickMove_first (pfx : String) (moves : List String) (hd : pfx.data ≠ [])
    (hq : ∀ m ∈ moves, isQPromo pfx m = false) :
    pickMove pfx moves "" = (moves.find? (fun m => strStartsWith m pfx)).getD "" := by
  induction moves with
  | nil => rfl
  | cons m rest ih =>
    have hqm : isQPromo pfx m = false := hq m (List.mem_cons_self m rest)
    by_cases hs : strStartsWith m pfx = true
    · have hnq : ((strLen m == 5) && (m.data.getD 4 ' ' == 'q')) = false := by
        rw [isQPromo, hs] at hqm
        simpa using hqm
      have hne : ¬ (m == "") = true := strStartsWith_ne_empty m pfx hs hd
      have hfind : List.find? (fun x => strStartsWith x pfx) (m :: rest) = some m :=
        @List.find?_cons_of_pos String (fun x => strStartsWith x pfx) m rest hs
      simp only [pickMove, hs, if_true, hnq, Bool.false_eq_true, if_false]
      rw [if_pos (by simp), hfind]
      have := pickMove_keep pfx rest (fun x hx => hq x (List.mem_cons_of_mem m hx)) m hne
      rw [this]
      rfl
    · have hfind : List.find? (fun x => strStartsWith x pfx) (m :: rest) =
          List.find? (fun x => strStartsWith x pfx) rest :=
        @List.find?_cons_of_neg String (fun x => strStartsWith x pfx) m rest hs
      simp only [pickMove, hs, Bool.false_eq_true, if_false]
      rw [hfind]
      exact ih (fun x hx => hq x (List.mem_cons_of_mem m hx))

lemma pickMove_qpromo (pfx : String) (moves : List String) (hpfx : pfx.data.length = 4)
    (hex : ∃ m ∈ moves, isQPromo pfx m = true) :
    ∀ sel, pickMove pfx moves sel = pfx ++ "q" := by
  induction moves with
  | nil =>
    obtain ⟨m, hm, -⟩ := hex
    exact absurd hm (List.not_mem_nil m)
  | cons m rest ih =>
    intro sel
    by_cases hqm : isQPromo pfx m = true
    · have hs : strStartsWith m pfx = true := by
        rw [isQPromo] at hqm
        simp only [Bool.and_eq_true] at hqm
        exact hqm.1.1
      have hnq : ((strLen m == 5) && (m.data.getD 4 ' ' == 'q')) = true := by
        rw [isQPromo, hs] at hqm
        simpa using hqm
      simp only [pickMove, hs, if_true, hnq]
      exact isQPromo_eq pfx m hpfx hqm
    · have hex2 : ∃ x ∈ rest, isQPromo pfx x = true := by
        obtain ⟨x, hx, hqx⟩ := hex
        rcases List.mem_cons.mp hx with rfl | hx
        · exact absurd hqx hqm
        · exact ⟨x, hx, hqx⟩
      by_cases hs : strStartsWith m pfx = true
      · have hnq : ((strLen m == 5) && (m.data.getD 4 ' ' == 'q')) = false := by
          rw [isQPromo, hs] at hqm
          simpa using Bool.of_not_eq_true hqm
        simp only [pickMove, hs, if_true, hnq, Bool.false_eq_true, if_false]
        split
        · exact ih hex2 m
        · exact ih hex2 sel
      · have hs2 : strStartsWith m pfx = false := Bool.of_not_eq_true hs
        simp only [pickMove, hs2, Bool.false_eq_true, if_false]
        exact ih hex2 sel

/-- The error produced by one oracle round-trip, if any: an execution
error message, or the parse error of its output; `none` when the output
parses. -/
def respError : OracleResponse → Option String
  | OracleResponse.execError m => some m
  | OracleResponse.output j =>
    match ParsePayloadJson j with
    | Except.error e => some e
    | Except.ok _ => none

lemma handleResponse_fail (s : ControllerState) (resp : OracleResponse) (e : String)
    (h : respError resp = some e) :
    handleResponse s resp = { state := s, ok := false, error := e, notified := false } := by
  cases resp with
  | execError m =>
    simp only [respError, Option.some.injEq] at h
    subst h
    rfl
  | output j =>
    cases hp : ParsePayloadJson j with
    | error e2 =>
      simp only [respError, hp, Option.some.injEq] at h
      subst h
      simp [handleResponse, hp]
    | ok next =>
      simp [respError, hp] at h

lemma handleResponse_ok (s : ControllerState) (j : Option OraclePayload)
    (next : FChessStatePayload) (hp : ParsePayloadJson j = Except.ok next) :
    handleResponse s (OracleResponse.output j) =
      { state := { s with CurrentState := next }, ok := true, error := "", notified := true } := by
  simp [handleResponse, hp]

lemma respError_none (resp : OracleResponse) (h : respError resp = none) :
    ∃ j next, resp = OracleResponse.output j ∧ ParsePayloadJson j = Except.ok next := by
  cases resp with
  | execError m => simp [respError] at h
  | output j =>
    cases hp : ParsePayloadJson j with
    | error e2 => simp [respError, hp] at h
    | ok next => exact ⟨j, next, rfl, hp⟩

lemma RefreshState_fail (oracle : Oracle) (s : ControllerState) (e : String)
    (h : respError (oracle (BuildMovesCsv s.MoveHistoryUci)) = some e) :
    RefreshState oracle s = { state := s, ok := false, error := e, notified := false } :=
  handleResponse_fail s (oracle (BuildMovesCsv s.MoveHistoryUci)) e h

lemma RefreshState_ok (oracle : Oracle) (s : ControllerState) (j : Option OraclePayload)
    (next : FChessStatePayload)
    (hresp : oracle (BuildMovesCsv s.MoveHistoryUci) = OracleResponse.output j)
    (hp : ParsePayloadJson j = Except.ok next) :
    RefreshState oracle s =
      { state := { s with CurrentState := next }, ok := true, error := "", notified := true } := by
  unfold RefreshState
  rw [hresp]
  exact handleResponse_ok s j next hp

lemma parse_fields (j : Option OraclePayload) (next : FChessStatePayload)
    (hp : ParsePayloadJson j = Except.ok next) :
    ∃ p, j = some p ∧ next.SelectedSquare = p.selected_square.getD "" ∧
      next.LegalTargets = p.legal_targets.getD [] ∧
      next.LegalMovesUci = p.legal_moves_uci.getD [] := by
  cases j with
  | none => simp [ParsePayloadJson] at hp
  | some p =>
    refine ⟨p, rfl, ?_⟩
    by_cases hreq : (p.fen.isSome && p.turn.isSome && p.is_game_over.isSome &&
        p.status_text.isSome && p.score_text.isSome) = true
    · simp only [ParsePayloadJson, hreq, if_true, Except.ok.injEq] at hp
      subst hp
      exact ⟨rfl, rfl, rfl⟩
    · simp only [ParsePayloadJson, hreq, Bool.false_eq_true, if_false] at hp
      exact absurd hp (by simp)

/-- An oracle whose accepted responses never carry a non-empty
`selected_square` field. -/
def oracleSelEmpty (o : Oracle) : Prop :=
  ∀ csv p, o csv = OracleResponse.output (some p) →
    p.selected_square = none ∨ p.selected_square = some ""

lemma handleResponse_invariant (s : ControllerState) (resp : OracleResponse)
    (hsel : ∀ p, resp = OracleResponse.output (some p) →
      p.selected_square = none ∨ p.selected_square = some "")
    (h : stateInvariant s.CurrentState) :
    stateInvariant (handleResponse s resp).state.CurrentState := by
  cases hfail : respError resp with
  | some e =>
    rw [handleResponse_fail s resp e hfail]
    exact h
  | none =>
    obtain ⟨j, next, rfl, hp⟩ := respError_none resp hfail
    rw [handleResponse_ok s j next hp]
    obtain ⟨p, rfl, hsel2, -, -⟩ := parse_fields j next hp
    apply stateInvariant_of_selEmpty
    rcases hsel p rfl with hn | hn <;> simp [hsel2, hn]

lemma RefreshState_invariant (o : Oracle) (s : ControllerState) (ho : oracleSelEmpty o)
    (h : stateInvariant s.CurrentState) :
    stateInvariant (RefreshState o s).state.CurrentState :=
  handleResponse_invariant s (o (BuildMovesCsv s.MoveHistoryUci))
    (fun p hp => ho (BuildMovesCsv s.MoveHistoryUci) p hp) h

lemma SelectSquare_invariant (sq : String) (s : ControllerState)
    (h : stateInvariant s.CurrentState) :
    stateInvariant (SelectSquare sq s).state.CurrentState := by
  unfold SelectSquare
  by_cases hv : IsSquareValid (NormalizeSquare sq) = true
  · simp only [hv, if_true]
    by_cases he : (computeTargets (NormalizeSquare sq) s.CurrentState.LegalMovesUci).isEmpty = true
    · simp only [he, if_true]
      exact stateInvariant_of_selEmpty _ rfl
    · simp only [he, Bool.false_eq_true, if_false]
      constructor
      · intro _ t
        show t ∈ sortAsc (computeTargets (NormalizeSquare sq) s.CurrentState.LegalMovesUci) ↔ _
        rw [mem_sortAsc, mem_computeTargets]
      · intro hnil
        exfalso
        have hct : computeTargets (NormalizeSquare sq) s.CurrentState.LegalMovesUci = [] :=
          (sortAsc_eq_nil_iff _).mp hnil
        rw [hct] at he
        exact he rfl
  · simp only [hv, Bool.false_eq_true, if_false]
    exact h

lemma TryMoveSelectedTo_invariant (t : String) (o : Oracle) (s : ControllerState)
    (ho : oracleSelEmpty o) (h : stateInvariant s.CurrentState) :
    stateInvariant (TryMoveSelectedTo t o s).state.CurrentState := by
  unfold TryMoveSelectedTo
  by_cases hf : IsSquareValid (NormalizeSquare s.CurrentState.SelectedSquare) = true
  · simp only [hf, if_true]
    by_cases ht : IsSquareValid (NormalizeSquare t) = true
    · simp only [ht, if_true]
      by_cases hc : (pickMove (NormalizeSquare s.CurrentState.SelectedSquare ++ NormalizeSquare t)
          s.CurrentState.LegalMovesUci "" == "") = true
      · simp only [hc, if_true]
        exact h
      · simp only [hc, Bool.false_eq_true, if_false]
        split
        · exact RefreshState_invariant o _ ho h
        · exact RefreshState_invariant o _ ho h
    · simp only [ht, Bool.false_eq_true, if_false]
      exact h
  · simp only [hf, Bool.false_eq_true, if_false]
    exact h

lemma ResetMatch_invariant (o : Oracle) (s : ControllerState) (ho : oracleSelEmpty o)
    (h : stateInvariant s.CurrentState) :
    stateInvariant (ResetMatch o s).state.CurrentState :=
  RefreshState_invariant o { s with MoveHistoryUci := [] } ho h

/-- The oracle restriction of an operation: any oracle it consults leaves
`selected_square` absent or empty in accepted responses.  Plain selection
needs no restriction. -/
def opSelEmpty : ChessOp → Prop
  | ChessOp.refreshOp o => oracleSelEmpty o
  | ChessOp.resetOp o => oracleSelEmpty o
  | ChessOp.selectOp _ => True
  | ChessOp.moveOp _ o => oracleSelEmpty o

lemma applyOp_invariant (s : ControllerState) (op : ChessOp) (hop : opSelEmpty op)
    (h : stateInvariant s.CurrentState) : stateInvariant (applyOp s op).CurrentState := by
  cases op with
  | refreshOp o => exact RefreshState_invariant o s hop h
  | resetOp o => exact ResetMatch_invariant o s hop h
  | selectOp sq => exact SelectSquare_invariant sq s h
  | moveOp t o => exact TryMoveSelectedTo_invariant t o s hop h

lemma foldl_invariant (ops : List ChessOp) :
    ∀ s, stateInvariant s.CurrentState → (∀ op ∈ ops, opSelEmpty op) →
      stateInvariant ((ops.foldl applyOp s).CurrentState) := by
  induction ops with
  | nil => intro s h _; exact h
  | cons op rest ih =>
    intro s h hops
    simp only [List.foldl_cons]
    exact ih (applyOp s op)
      (applyOp_invariant s op (hops op (List.mem_cons_self op rest)) h)
      (fun x hx => hops x (List.mem_cons_of_mem op hx))

/-- Fixture: opening position with three known legal moves. -/
def st3 : ControllerState :=
  { CurrentState := { initialPayload with LegalMovesUci := ["e2e4", "e2e3", "b1c3"] },
    MoveHistoryUci := [] }

/-- Fixture: pawn on e7 ready to promote, queen move only. -/
def st6 : ControllerState :=
  { CurrentState := { initialPayload with SelectedSquare := "e7", LegalMovesUci := ["e7e8q"] },
    MoveHistoryUci := [] }

/-- Fixture: pawn on e7 with both knight- and queen-promotion entries,
knight listed first. -/
def st2 : ControllerState :=
  { CurrentState :=
      { initialPayload with SelectedSquare := "e7", LegalMovesUci := ["e7e8n", "e7e8q"] },
    MoveHistoryUci := [] }

/-- Fixture payload: all required fields, no selection carried over. -/
def goodPayload : OraclePayload :=
  { fen := some "8/8/8/8/8/8/8/8 w - - 0 1", turn := some "white", is_game_over := some false,
    status_text := some "ok", score_text := some "0", legal_moves_uci := some ["e2e4"] }

/-- Fixture payload: all required fields plus a non-empty
`selected_square`, which the parser accepts and installs verbatim. -/
def selPayload : OraclePayload :=
  { fen := some "8/8/8/8/8/8/8/8 b - - 0 1", turn := some "black", is_game_over := some false,
    status_text := some "ok", score_text := some "0", selected_square := some "e2",
    legal_moves_uci := some ["e2e4"] }

/-- Fixture oracle that always succeeds with `goodPayload`. -/
def goodOracle : Oracle := fun _ => OracleResponse.output (some goodPayload)

/-- Fixture oracle that always succeeds with `selPayload`. -/
def selOracle : Oracle := fun _ => OracleResponse.output (some selPayload)

/-- Fixture oracle whose process invocation always fails. -/
def failOracle : Oracle := fun _ => OracleResponse.execError "exporter failed"

/-- C10: `selectSquare` modifies at most `SelectedSquare` and
`LegalTargets`: the FEN, turn, game-over flag, status and score texts, the
legal-move list and the move history are unchanged on every path. -/
theorem C10_selectSquare_frame (sq : String) (s : ControllerState) :
    (SelectSquare sq s).state.CurrentState.Fen = s.CurrentState.Fen ∧
    (SelectSquare sq s).state.CurrentState.Turn = s.CurrentState.Turn ∧
    (SelectSquare sq s).state.CurrentState.bIsGameOver = s.CurrentState.bIsGameOver ∧
    (SelectSquare sq s).state.CurrentState.StatusText = s.CurrentState.StatusText ∧
    (SelectSquare sq s).state.CurrentState.ScoreText = s.CurrentState.ScoreText ∧
    (SelectSquare sq s).state.CurrentState.LegalMovesUci = s.CurrentState.LegalMovesUci ∧
    (SelectSquare sq s).state.MoveHistoryUci = s.MoveHistoryUci := by
  simp only [SelectSquare]
  split
  · split
    · exact ⟨rfl, rfl, rfl, rfl, rfl, rfl, rfl⟩
    · exact ⟨rfl, rfl, rfl, rfl, rfl, rfl, rfl⟩
  · exact ⟨rfl, rfl, rfl, rfl, rfl, rfl, rfl⟩

/-- C8: with no valid selection, `tryMoveSelectedTo` fails with the
no-selection error, calls no oracle, notifies nobody, and changes
nothing. -/
theorem C8_no_selection_rejected (s : ControllerState) (target : String) (oracle : Oracle)
    (h : IsSquareValid (NormalizeSquare s.CurrentState.SelectedSquare) = false) :
    TryMoveSelectedTo target oracle s =
      { state := s, ok := false, error := "No selected square.",
        notified := false, oracleCalled := false } := by
  have h2 : ¬ IsSquareValid (NormalizeSquare s.CurrentState.SelectedSquare) = true := by
    simp [h]
  unfold TryMoveSelectedTo
  rw [if_neg h2]

/-- C8 witness: the freshly constructed controller has no selection, so a
move attempt fails with the no-selection error and calls no oracle. -/
theorem C8_witness :
    TryMoveSelectedTo "e4" failOracle initialState =
      { state := initialState, ok := false, error := "No selected square.",
        notified := false, oracleCalled := false } :=
  C8_no_selection_rejected initialState "e4" failOracle (by decide)

/-- C7: a square that is malformed after normalisation makes
`selectSquare` return false with no state change and no notification, and
makes `tryMoveSelectedTo` fail with no state change and no oracle call. -/
theorem C7_malformed_square_rejected (sq : String) (s : ControllerState) (oracle : Oracle)
    (h : IsSquareValid (NormalizeSquare sq) = false) :
    SelectSquare sq s = { state := s, returned := false, notified := false } ∧
    (TryMoveSelectedTo sq oracle s).state = s ∧
    (TryMoveSelectedTo sq oracle s).ok = false ∧
    (TryMoveSelectedTo sq oracle s).notified = false ∧
    (TryMoveSelectedTo sq oracle s).oracleCalled = false := by
  have h2 : ¬ IsSquareValid (NormalizeSquare sq) = true := by simp [h]
  constructor
  · unfold SelectSquare
    rw [if_neg h2]
  · unfold TryMoveSelectedTo
    by_cases hf : IsSquareValid (NormalizeSquare s.CurrentState.SelectedSquare) = true
    · simp only [hf, if_true]
      rw [if_neg h2]
      exact ⟨rfl, rfl, rfl, rfl⟩
    · rw [if_neg hf]
      exact ⟨rfl, rfl, rfl, rfl⟩

/-- C7 witness: the malformed square x9 is rejected by both operations
with no state change on a state that has a valid selection. -/
theorem C7_witness :
    IsSquareValid (NormalizeSquare "x9") = false ∧
    SelectSquare "x9" st6 = { state := st6, returned := false, notified := false } ∧
    (TryMoveSelectedTo "x9" failOracle st6).state = st6 ∧
    (TryMoveSelectedTo "x9" failOracle st6).oracleCalled = false := by
  have h := C7_malformed_square_rejected "x9" st6 failOracle (by decide)
  exact ⟨by decide, h.1, h.2.1, h.2.2.2.2⟩

/-- C4: every refresh failure (exporter execution failure, unparseable
output, missing required field) surfaces an error, leaves the state
exactly as it was and fires no notification; only a fully parsed response
replaces the snapshot wholesale and notifies observers. -/
theorem C4_refresh_failure_atomicity (oracle : Oracle) (s : ControllerState) :
    (∀ m, oracle (BuildMovesCsv s.MoveHistoryUci) = OracleResponse.execError m →
      RefreshState oracle s = { state := s, ok := false, error := m, notified := false }) ∧
    (∀ j e, oracle (BuildMovesCsv s.MoveHistoryUci) = OracleResponse.output j →
      ParsePayloadJson j = Except.error e →
      RefreshState oracle s = { state := s, ok := false, error := e, notified := false }) ∧
    (ParsePayloadJson none = Except.error "Failed to parse JSON payload.") ∧
    (∀ p : OraclePayload, (p.fen.isSome && p.turn.isSome && p.is_game_over.isSome &&
        p.status_text.isSome && p.score_text.isSome) = false →
      ParsePayloadJson (some p) =
        Except.error "Payload is missing one or more required fields.") ∧
    (∀ j next, oracle (BuildMovesCsv s.MoveHistoryUci) = OracleResponse.output j →
      ParsePayloadJson j = Except.ok next →
      RefreshState oracle s =
        { state := { s with CurrentState := next }, ok := true, error := "",
          notified := true }) := by
  refine ⟨?_, ?_, rfl, ?_, ?_⟩
  · intro m hm
    apply RefreshState_fail
    rw [hm]
    rfl
  · intro j e hj he
    apply RefreshState_fail
    rw [hj]
    simp [respError, he]
  · intro p hp
    simp [ParsePayloadJson, hp]
  · intro j next hj hn
    exact RefreshState_ok oracle s j next hj hn

/-- The snapshot parsed from `goodPayload`. -/
def goodNext : FChessStatePayload :=
  { Fen := "8/8/8/8/8/8/8/8 w - - 0 1", Turn := "white", SelectedSquare := "",
    LegalTargets := [], bIsGameOver := false, StatusText := "ok", ScoreText := "0",
    LegalMovesUci := ["e2e4"] }

/-- C4 witness: a failing exporter leaves the fresh controller untouched
without notifying, and a complete payload replaces the snapshot and
notifies. -/
theorem C4_witness :
    RefreshState failOracle initialState =
      { state := initialState, ok := false, error := "exporter failed", notified := false } ∧
    RefreshState goodOracle initialState =
      { state := { initialState with CurrentState := goodNext }, ok := true, error := "",
        notified := true } :=
  ⟨(C4_refresh_failure_atomicity failOracle initialState).1 "exporter failed" rfl,
    (C4_refresh_failure_atomicity goodOracle initialState).2.2.2.2 (some goodPayload) goodNext
      rfl (by rfl)⟩

/-- C5: when a valid selection and target produce a matching legal move
but the follow-up refresh fails, the optimistically appended move is
popped, restoring the whole state (history included), and the refresh
error is returned. -/
theorem C5_history_rollback (s : ControllerState) (target : String) (oracle : Oracle)
    (e : String)
    (hF : IsSquareValid (NormalizeSquare s.CurrentState.SelectedSquare) = true)
    (hT : IsSquareValid (NormalizeSquare target) = true)
    (hm : ¬ (pickMove (NormalizeSquare s.CurrentState.SelectedSquare ++ NormalizeSquare target)
        s.CurrentState.LegalMovesUci "" == "") = true)
    (hfail : respError (oracle (BuildMovesCsv (s.MoveHistoryUci ++
        [pickMove (NormalizeSquare s.CurrentState.SelectedSquare ++ NormalizeSquare target)
          s.CurrentState.LegalMovesUci ""]))) = some e) :
    TryMoveSelectedTo target oracle s =
      { state := s, ok := false, error := e, notified := false, oracleCalled := true } := by
  unfold TryMoveSelectedTo
  simp only [hF, hT, if_true, hm, Bool.false_eq_true, if_false]
  rw [RefreshState_fail oracle _ e hfail]
  simp only [Bool.false_eq_true, if_false, List.dropLast_concat]

/-- C5 witness: the queen promotion from st6 is appended and rolled back
when the exporter fails, leaving the state bit-for-bit unchanged. -/
theorem C5_witness :
    TryMoveSelectedTo "e8" failOracle st6 =
      { state := st6, ok := false, error := "exporter failed", notified := false,
        oracleCalled := true } :=
  C5_history_rollback st6 "e8" failOracle "exporter failed"
    (by decide) (by decide) (by decide) (by decide)

/-- C9: `resetMatch` clears the move history before refreshing, so the
refresh is consulted with the empty CSV and the history is empty
afterwards whether the refresh fails (error logged, not thrown) or
succeeds. -/
theorem C9_reset_clears_history (oracle : Oracle) (s : ControllerState) :
    (ResetMatch oracle s).state.MoveHistoryUci = [] ∧
    (∀ e, respError (oracle (BuildMovesCsv [])) = some e →
      (ResetMatch oracle s).state = { s with MoveHistoryUci := [] } ∧
      (¬ e = "" → (ResetMatch oracle s).warning = e)) ∧
    (respError (oracle (BuildMovesCsv [])) = none → (ResetMatch oracle s).warning = "") := by
  refine ⟨?_, ?_, ?_⟩
  · cases hfail : respError (oracle (BuildMovesCsv [])) with
    | some e =>
      simp only [ResetMatch]
      rw [RefreshState_fail oracle { s with MoveHistoryUci := [] } e hfail]
    | none =>
      obtain ⟨j, next, hj, hp⟩ := respError_none (oracle (BuildMovesCsv [])) hfail
      simp only [ResetMatch]
      rw [RefreshState_ok oracle { s with MoveHistoryUci := [] } j next hj hp]
  · intro e hfail
    simp only [ResetMatch]
    rw [RefreshState_fail oracle { s with MoveHistoryUci := [] } e hfail]
    refine ⟨rfl, fun hne => ?_⟩
    have hbe : (e == "") = false := by
      cases hb : (e == "") with
      | true => exact absurd (by simpa using hb) hne
      | false => rfl
    simp [hbe]
  · intro hfail
    obtain ⟨j, next, hj, hp⟩ := respError_none (oracle (BuildMovesCsv [])) hfail
    simp only [ResetMatch]
    rw [RefreshState_ok oracle { s with MoveHistoryUci := [] } j next hj hp]
    rfl

/-- C9 witness: resetting st6 under a failing exporter leaves an empty
history and logs the error; resetting under a good exporter leaves an
empty history and logs nothing. -/
theorem C9_witness :
    (ResetMatch failOracle st6).state.MoveHistoryUci = [] ∧
    (ResetMatch failOracle st6).warning = "exporter failed" ∧
    (ResetMatch goodOracle st6).warning = "" := by
  have hf := C9_reset_clears_history failOracle st6
  have hg := C9_reset_clears_history goodOracle st6
  exact ⟨hf.1, ((hf.2.1 "exporter failed" (by decide)).2 (by decide)),
    hg.2.2 (by decide)⟩

/-- C6 counterexample: the payload parser accepts a response whose
`selected_square` is "e2", and a successful move/refresh then leaves that
selection in the new state, so the resulting `SelectedSquare` is not
empty. -/
theorem C6_counterexample :
    (TryMoveSelectedTo "e8" selOracle st6).ok = true ∧
    (TryMoveSelectedTo "e8" selOracle st6).state.CurrentState.SelectedSquare = "e2" ∧
    ¬ (TryMoveSelectedTo "e8" selOracle st6).state.CurrentState.SelectedSquare = "" := by
  refine ⟨by decide, by decide, ?_⟩
  intro h
  exact absurd h (by decide)

/-- C6 (amended): after a successful `tryMoveSelectedTo`, the selection of
the resulting state is whatever `selected_square` the accepted oracle
response carried; whenever that field is absent or empty — as for every
response with no selection payload — the new `SelectedSquare` is empty. -/
theorem C6_selection_cleared (s : ControllerState) (target : String) (oracle : Oracle)
    (ho : oracleSelEmpty oracle)
    (hok : (TryMoveSelectedTo target oracle s).ok = true) :
    (TryMoveSelectedTo target oracle s).state.CurrentState.SelectedSquare = "" := by
  unfold TryMoveSelectedTo at hok ⊢
  by_cases hF : IsSquareValid (NormalizeSquare s.CurrentState.SelectedSquare) = true
  · simp only [hF, if_true] at hok ⊢
    by_cases hT : IsSquareValid (NormalizeSquare target) = true
    · simp only [hT, if_true] at hok ⊢
      by_cases hc : (pickMove (NormalizeSquare s.CurrentState.SelectedSquare ++
          NormalizeSquare target) s.CurrentState.LegalMovesUci "" == "") = true
      · simp only [hc, if_true] at hok
        exact absurd hok (by simp)
      · simp only [hc, Bool.false_eq_true, if_false] at hok ⊢
        cases hfail : respError (oracle (BuildMovesCsv (s.MoveHistoryUci ++
            [pickMove (NormalizeSquare s.CurrentState.SelectedSquare ++ NormalizeSquare target)
              s.CurrentState.LegalMovesUci ""]))) with
        | some e =>
          rw [RefreshState_fail oracle _ e hfail] at hok
          simp at hok
        | none =>
          obtain ⟨j, next, hj, hp⟩ := respError_none _ hfail
          rw [RefreshState_ok oracle _ j next hj hp]
          obtain ⟨p, hjp, hsel2, -, -⟩ := parse_fields j next hp
          subst hjp
          rcases ho _ p hj with hn | hn
          · show next.SelectedSquare = ""
            rw [hsel2, hn]
            rfl
          · show next.SelectedSquare = ""
            rw [hsel2, hn]
            rfl
    · simp only [hT, Bool.false_eq_true, if_false] at hok
  · simp only [hF, Bool.false_eq_true, if_false] at hok

/-- C6 witness: moving from st6 with an oracle whose responses never carry
a selection yields a successful move whose new state has an empty
selection. -/
theorem C6_witness :
    (TryMoveSelectedTo "e8" goodOracle st6).ok = true ∧
    (TryMoveSelectedTo "e8" goodOracle st6).state.CurrentState.SelectedSquare = "" := by
  have ho : oracleSelEmpty goodOracle := by
    intro csv p hp
    simp only [goodOracle, OracleResponse.output.injEq, Option.some.injEq] at hp
    subst hp
    left
    rfl
  exact ⟨by decide, C6_selection_cleared st6 "e8" goodOracle ho (by decide)⟩

/-- C3: for a valid normalised square, `selectSquare` computes the
deduplicated ascending-sorted second squares of the matching legal moves;
when none match it clears the selection and targets, notifies, and returns
false; when some match it installs the selection and the sorted targets,
notifies, and returns true. -/
theorem C3_selectSquare_targets (sq : String) (s : ControllerState)
    (h : IsSquareValid (NormalizeSquare sq) = true) :
    (specTargets (NormalizeSquare sq) s.CurrentState.LegalMovesUci = [] →
      SelectSquare sq s =
        { state := { s with CurrentState :=
            { s.CurrentState with SelectedSquare := "", LegalTargets := [] } },
          returned := false, notified := true }) ∧
    (specTargets (NormalizeSquare sq) s.CurrentState.LegalMovesUci ≠ [] →
      (SelectSquare sq s).returned = true ∧
      (SelectSquare sq s).notified = true ∧
      (SelectSquare sq s).state.CurrentState.SelectedSquare = NormalizeSquare sq ∧
      List.Pairwise (fun a b => strLe a b = true)
        (SelectSquare sq s).state.CurrentState.LegalTargets ∧
      (SelectSquare sq s).state.CurrentState.LegalTargets.Nodup ∧
      (∀ t, t ∈ (SelectSquare sq s).state.CurrentState.LegalTargets ↔
        t ∈ specTargets (NormalizeSquare sq) s.CurrentState.LegalMovesUci)) := by
  constructor
  · intro hnil
    have hct : computeTargets (NormalizeSquare sq) s.CurrentState.LegalMovesUci = [] :=
      (computeTargets_eq_nil_iff _ _).mpr hnil
    simp only [SelectSquare, h, if_true, hct, List.isEmpty_nil, if_true]
  · intro hne
    have hct : ¬ (computeTargets (NormalizeSquare sq) s.CurrentState.LegalMovesUci).isEmpty
        = true := by
      intro hh
      exact hne ((computeTargets_eq_nil_iff _ _).mp (List.isEmpty_iff.mp hh))
    simp only [SelectSquare, h, if_true]
    rw [if_neg hct]
    refine ⟨rfl, rfl, rfl, sorted_sortAsc _,
      sortAsc_nodup _ (nodup_computeTargets _ _), fun t => ?_⟩
    show t ∈ sortAsc (computeTargets (NormalizeSquare sq) s.CurrentState.LegalMovesUci) ↔ _
    rw [mem_sortAsc, mem_computeTargets]

/-- C3 witness: selecting e2 against the fixture move list succeeds and
produces exactly the sorted targets e3, e4. -/
theorem C3_witness :
    IsSquareValid (NormalizeSquare "e2") = true ∧
    specTargets (NormalizeSquare "e2") st3.CurrentState.LegalMovesUci ≠ [] ∧
    (SelectSquare "e2" st3).returned = true ∧
    (SelectSquare "e2" st3).state.CurrentState.LegalTargets = ["e3", "e4"] := by
  refine ⟨by decide, by decide, ?_, by decide⟩
  exact ((C3_selectSquare_targets "e2" st3 (by decide)).2 (by decide)).1

/-- C2: with a valid selection and target, the move-selection scan takes
the queen-promotion entry whenever one matches the from+to string
(wherever it sits in the list), otherwise the first matching entry in list
order, and with no matching entry `tryMoveSelectedTo` fails with the
illegal-move error and changes nothing. -/
theorem C2_promotion_tiebreak (s : ControllerState) (target : String)
    (hF : IsSquareValid (NormalizeSquare s.CurrentState.SelectedSquare) = true)
    (hT : IsSquareValid (NormalizeSquare target) = true) :
    ((∃ m ∈ s.CurrentState.LegalMovesUci,
        isQPromo (NormalizeSquare s.CurrentState.SelectedSquare ++ NormalizeSquare target) m
          = true) →
      pickMove (NormalizeSquare s.CurrentState.SelectedSquare ++ NormalizeSquare target)
          s.CurrentState.LegalMovesUci "" =
        (NormalizeSquare s.CurrentState.SelectedSquare ++ NormalizeSquare target) ++ "q") ∧
    ((∀ m ∈ s.CurrentState.LegalMovesUci,
        isQPromo (NormalizeSquare s.CurrentState.SelectedSquare ++ NormalizeSquare target) m
          = false) →
      pickMove (NormalizeSquare s.CurrentState.SelectedSquare ++ NormalizeSquare target)
          s.CurrentState.LegalMovesUci "" =
        ((s.CurrentState.LegalMovesUci.find? (fun m => strStartsWith m
          (NormalizeSquare s.CurrentState.SelectedSquare ++ NormalizeSquare target))).getD "")) ∧
    ((∀ m ∈ s.CurrentState.LegalMovesUci,
        strStartsWith m (NormalizeSquare s.CurrentState.SelectedSquare ++ NormalizeSquare target)
          = false) →
      ∀ oracle, TryMoveSelectedTo target oracle s =
        { state := s, ok := false,
          error := "Illegal move: " ++
            (NormalizeSquare s.CurrentState.SelectedSquare ++ NormalizeSquare target),
          notified := false, oracleCalled := false }) := by
  have h4 : (NormalizeSquare s.CurrentState.SelectedSquare ++ NormalizeSquare target).data.length
      = 4 := by
    rw [String.data_append, List.length_append,
      IsSquareValid_data_length _ hF, IsSquareValid_data_length _ hT]
  have hd : (NormalizeSquare s.CurrentState.SelectedSquare ++ NormalizeSquare target).data ≠ [] := by
    intro hh
    rw [hh] at h4
    simp at h4
  refine ⟨fun hex => pickMove_qpromo _ _ h4 hex "", fun hq => pickMove_first _ _ hd hq,
    fun hnone oracle => ?_⟩
  have hzero : pickMove (NormalizeSquare s.CurrentState.SelectedSquare ++ NormalizeSquare target)
      s.CurrentState.LegalMovesUci "" = "" :=
    pickMove_no_match _ _ hnone ""
  unfold TryMoveSelectedTo
  simp only [hF, hT, if_true, hzero]
  rw [if_pos (by simp)]

/-- C2 witness: from st2 the scan prefers the queen promotion e7e8q over
the knight promotion listed before it. -/
theorem C2_witness :
    IsSquareValid (NormalizeSquare st2.CurrentState.SelectedSquare) = true ∧
    IsSquareValid (NormalizeSquare "e8") = true ∧
    pickMove (NormalizeSquare st2.CurrentState.SelectedSquare ++ NormalizeSquare "e8")
        st2.CurrentState.LegalMovesUci "" =
      (NormalizeSquare st2.CurrentState.SelectedSquare ++ NormalizeSquare "e8") ++ "q" :=
  ⟨by decide, by decide,
    (C2_promotion_tiebreak st2 "e8" (by decide) (by decide)).1
      ⟨"e7e8q", by decide, by decide⟩⟩

/-- C1 counterexample: one refresh whose accepted payload carries
`selected_square` e2 with no `legal_targets` reaches a state with a
non-empty selection and empty targets, violating both halves of the
claimed invariant. -/
theorem C1_counterexample :
    Reachable (applyOp initialState (ChessOp.refreshOp selOracle)) ∧
    ¬ stateInvariant (applyOp initialState (ChessOp.refreshOp selOracle)).CurrentState := by
  constructor
  · exact ⟨[ChessOp.refreshOp selOracle], rfl⟩
  · intro hinv
    have hempty : (applyOp initialState (ChessOp.refreshOp selOracle)).CurrentState.LegalTargets
        = [] := by decide
    have hsel := hinv.2 hempty
    exact absurd hsel (by decide)

/-- C1 (amended): along every operation sequence whose refreshes only ever
accept payloads with an absent or empty `selected_square` field, every
reachable state satisfies the invariant: a non-empty selection's targets
are exactly the second squares of the matching legal moves, and empty
targets force an empty selection. -/
theorem C1_selection_invariant (ops : List ChessOp) (h : ∀ op ∈ ops, opSelEmpty op) :
    stateInvariant ((ops.foldl applyOp initialState).CurrentState) :=
  foldl_invariant ops initialState stateInvariant_initial h

/-- Operation sequence for the C1 witness: a successful refresh followed
by selecting e2. -/
def witnessOps : List ChessOp := [ChessOp.refreshOp goodOracle, ChessOp.selectOp "e2"]

/-- C1 witness: the two-operation sequence refresh-then-select satisfies
the oracle restriction, and the state it reaches satisfies the
invariant. -/
theorem C1_witness :
    (∀ op ∈ witnessOps, opSelEmpty op) ∧
    stateInvariant ((witnessOps.foldl applyOp initialState).CurrentState) := by
  have h : ∀ op ∈ witnessOps, opSelEmpty op := by
    intro op hop
    simp only [witnessOps, List.mem_cons, List.not_mem_nil, or_false] at hop
    rcases hop with rfl | rfl
    · intro csv p hp
      simp only [goodOracle, OracleResponse.output.injEq, Option.some.injEq] at hp
      subst hp
      left
      rfl
    · trivial
  exact ⟨h, C1_selection_invariant witnessOps h⟩
